import Mathlib

/-!
Shallow embedding of the vovanec/errors structured-error library.

The model covers, translated from the Go source:
  * `slog` values and attributes (`SValue`, `SAttr`), with group values;
  * the argument normalizer `internal.ParseLogArgs` together with
    `argsToAttr`, `isEmptyGroup`, `logAttrsFromError` and
    `logAttrsFromContext` (src/internal/internal.go);
  * the propagation context `internal.ContextWithLogArgs`; Go contexts
    store the attribute map by reference, so the model threads an explicit
    heap of maps and contexts hold a reference into it;
  * the structured error type of src/errors.go (`sErr`, carrying origin)
    and of the serror variant (`serr`, carrying origin and stack), with
    their `New`/`Wrap` constructors and `LogValue` renderings;
  * the stdlib-delegating chain operations `errors.Is` / `errors.As` /
    `Unwrap`.  Go compares interface errors by pointer identity, so every
    error allocation carries a fresh numeric id threaded through an
    allocation counter.
Panics of the Go code (contract violations in the normalizer) are
modelled by `Option`: `none` is a panic.
-/

namespace VErrors

/-- A `slog.Value` as observable by this library: a scalar (string or
int), the zero value (`slog.Attr{}`), or a group of attributes.
`group` mirrors `slog.GroupValue`. -/
inductive SValue where
  | str : String → SValue
  | int : Int → SValue
  | zero : SValue
  | group : List (String × SValue) → SValue

/-- A `slog.Attr`: key/value pair. -/
abbrev SAttr := String × SValue

/-- An attribute set: the Go `map[string]slog.Attr`, modelled as an
association list whose keys are kept unique by `insertAttr`. -/
abbrev AttrMap := List SAttr

/-- Insertion into the attribute map: `am[a.Key] = a`.  Replaces an
existing binding in place, otherwise appends. -/
def insertAttr : AttrMap → String → SValue → AttrMap
  | [], k, v => [(k, v)]
  | (k0, v0) :: rest, k, v =>
    if k0 = k then (k, v) :: rest else (k0, v0) :: insertAttr rest k v

/-- Insert a whole list of attributes, left to right. -/
def insertAll (m : AttrMap) (l : List SAttr) : AttrMap :=
  l.foldl (fun m a => insertAttr m a.1 a.2) m

/-- Map lookup `am[k]`. -/
def lookupA : AttrMap → String → Option SValue
  | [], _ => none
  | (k0, v0) :: rest, k => if k0 = k then some v0 else lookupA rest k

/-- The keys of an attribute map. -/
def keysOf (m : AttrMap) : List String := m.map Prod.fst

/-- First-of-two option choice (used to state last-write-wins facts). -/
def orO (a b : Option SValue) : Option SValue :=
  match a with
  | some v => some v
  | none => b

/-- The value of the last (rightmost) occurrence of key `k` in a raw
attribute list; this is what last-write-wins insertion retains. -/
def lastVal : List SAttr → String → Option SValue
  | [], _ => none
  | a :: s, k => orO (lastVal s k) (if a.1 = k then some a.2 else none)

/-- Lexicographic strict order on character lists: Go's `<` on strings
compares byte-wise lexicographically. -/
def charListLT : List Char → List Char → Bool
  | [], [] => false
  | [], _ :: _ => true
  | _ :: _, [] => false
  | a :: as, b :: bs => if a < b then true else if b < a then false else charListLT as bs

/-- Lexicographic `<` on strings (Go's string comparison). -/
def strLT (a b : String) : Bool := charListLT a.data b.data

/-- Lexicographic `≤` on strings, the reflexive closure of `strLT`. -/
def strLE (a b : String) : Bool := ! strLT b a

/-- Key-wise order used whenever the library sorts attributes
(`sort.Slice(attrs, func(i, j int) bool { return attrs[i].Key < attrs[j].Key })`). -/
def keyLE (a b : SAttr) : Prop := strLE a.1 b.1 = true

instance : DecidableRel keyLE := fun a b =>
  inferInstanceAs (Decidable (strLE a.1 b.1 = true))

theorem charListLT_asymm :
    ∀ {x y : List Char}, charListLT x y = true → charListLT y x = false := by
  intro x
  induction x with
  | nil =>
    intro y h
    cases y with
    | nil => cases h
    | cons b bs => rfl
  | cons a as ih =>
    intro y h
    cases y with
    | nil => cases h
    | cons b bs =>
      simp only [charListLT] at h ⊢
      by_cases hab : a < b
      · rw [if_neg (lt_asymm hab), if_pos hab]
      · rw [if_neg hab] at h
        by_cases hba : b < a
        · rw [if_pos hba] at h
          cases h
        · rw [if_neg hba] at h
          rw [if_neg hba, if_neg hab]
          exact ih h

theorem charListLT_trans :
    ∀ {x y z : List Char}, charListLT x y = true → charListLT y z = true →
      charListLT x z = true := by
  intro x
  induction x with
  | nil =>
    intro y z hxy hyz
    cases y with
    | nil => cases hxy
    | cons b bs =>
      cases z with
      | nil => cases hyz
      | cons c cs => rfl
  | cons a as ih =>
    intro y z hxy hyz
    cases y with
    | nil => cases hxy
    | cons b bs =>
      cases z with
      | nil => cases hyz
      | cons c cs =>
        simp only [charListLT] at hxy hyz ⊢
        by_cases hab : a < b
        · by_cases hbc : b < c
          · rw [if_pos (lt_trans hab hbc)]
          · rw [if_neg hbc] at hyz
            by_cases hcb : c < b
            · rw [if_pos hcb] at hyz
              cases hyz
            · rw [if_neg hcb] at hyz
              have hbc2 : b = c := le_antisymm (not_lt.1 hcb) (not_lt.1 hbc)
              rw [if_pos (hbc2 ▸ hab)]
        · rw [if_neg hab] at hxy
          by_cases hba : b < a
          · rw [if_pos hba] at hxy
            cases hxy
          · rw [if_neg hba] at hxy
            have hab2 : a = b := le_antisymm (not_lt.1 hba) (not_lt.1 hab)
            subst hab2
            by_cases hac : a < c
            · rw [if_pos hac]
            · rw [if_neg hac] at hyz ⊢
              by_cases hca : c < a
              · rw [if_pos hca] at hyz
                cases hyz
              · rw [if_neg hca] at hyz ⊢
                exact ih hxy hyz

theorem charListLT_connex :
    ∀ {x y : List Char}, charListLT x y = false → charListLT y x = false → x = y := by
  intro x
  induction x with
  | nil =>
    intro y hxy _
    cases y with
    | nil => rfl
    | cons b bs => cases hxy
  | cons a as ih =>
    intro y hxy hyx
    cases y with
    | nil => cases hyx
    | cons b bs =>
      simp only [charListLT] at hxy hyx
      by_cases hab : a < b
      · rw [if_pos hab] at hxy
        cases hxy
      · rw [if_neg hab] at hxy
        by_cases hba : b < a
        · rw [if_pos hba] at hyx
          cases hyx
        · rw [if_neg hba] at hxy
          rw [if_neg hba, if_neg hab] at hyx
          have hab2 : a = b := le_antisymm (not_lt.1 hba) (not_lt.1 hab)
          rw [hab2, ih hxy hyx]

instance : IsTotal SAttr keyLE :=
  ⟨fun a b => by
    unfold keyLE strLE strLT
    cases h : charListLT b.1.data a.1.data with
    | false => exact Or.inl (by simp [h])
    | true => exact Or.inr (by simp [charListLT_asymm h])⟩

instance : IsTrans SAttr keyLE :=
  ⟨fun a b c h1 h2 => by
    unfold keyLE strLE strLT at h1 h2 ⊢
    simp only [Bool.not_eq_true'] at h1 h2 ⊢
    cases hca : charListLT c.1.data a.1.data with
    | false => rfl
    | true =>
      by_cases hbc : charListLT b.1.data c.1.data = true
      · rw [charListLT_trans hbc hca] at h1
        cases h1
      · have hbc2 : charListLT b.1.data c.1.data = false := by
          simpa using hbc
        have heq : b.1.data = c.1.data := charListLT_connex hbc2 h2
        rw [heq, hca] at h1
        cases h1⟩

/-- Deterministic rendering order: sort attributes by key. -/
def sortByKey (l : List SAttr) : List SAttr := List.insertionSort keyLE l

/-- `internal.isEmptyGroup`. -/
def isEmptyGroup : SValue → Bool
  | .group l => l.isEmpty
  | _ => false

/-- Kind test `v.Kind() == slog.KindGroup`. -/
def isGroupV : SValue → Bool
  | .group _ => true
  | _ => false

/-- An error origin (`ErrorOrigin` / `Origin` in the source): file and
line captured by `runtime.Caller`. -/
structure Origin where
  file : String
  line : Int
  deriving DecidableEq, Repr

/-- `Origin.Empty`: the sentinel is an empty file name. -/
def Origin.emptyB (o : Origin) : Bool := o.file == ""

/-- `Origin.String`: `"<file>:<line>"`. -/
def Origin.render (o : Origin) : String := o.file ++ ":" ++ toString o.line

/-- `StackTrace.String`: space-joined origins. -/
def stackRender (st : List Origin) : String :=
  String.intercalate " " (st.map Origin.render)

/-- Reserved attribute names of the library. -/
def errKey : String := "error"

/-- The message key inside the rendered error group. -/
def msgKey : String := "msg"

/-- The origin key inside the rendered error group (errors.go variant). -/
def errOriginKey : String := "origin"

/-- The stack key inside the rendered error group (serror variant). -/
def stackKey : String := "stack"

/-- `internal.badKey`: the sentinel name for malformed arguments. -/
def badKey : String := "!BADKEY"

/-- Go error values reachable in this model.  Every allocation carries a
fresh id (first field): Go compares errors by pointer identity.
  * `base` is `errors.New(message)`;
  * `wrapErr` is `fmt.Errorf("%s: %w", message, err)`;
  * `sErr` is the `*sError` of src/errors.go (attrs + origin);
  * `serr` is the `*sError` of the serror variant (attrs + origin + stack);
  * `custom` is an external error with a message and, when present, the
    `slog.Value` its `LogValue` method returns. -/
inductive GoError where
  | base : Nat → String → GoError
  | wrapErr : Nat → String → GoError → GoError
  | sErr : Nat → GoError → AttrMap → Origin → GoError
  | serr : Nat → GoError → AttrMap → Origin → List Origin → GoError
  | custom : Nat → String → Option SValue → GoError

/-- The allocation id of an error (its pointer identity). -/
def goId : GoError → Nat
  | .base i _ => i
  | .wrapErr i _ _ => i
  | .sErr i _ _ _ => i
  | .serr i _ _ _ _ => i
  | .custom i _ _ => i

/-- `Error()`: the plain chain text of an error. -/
def errText : GoError → String
  | .base _ m => m
  | .wrapErr _ m inner => m ++ ": " ++ errText inner
  | .sErr _ inner _ _ => errText inner
  | .serr _ inner _ _ _ => errText inner
  | .custom _ m _ => m

/-- The `Unwrap() error` method as the chain operations see it:
`base` and `custom` expose no cause. -/
def unwrapM : GoError → Option GoError
  | .base _ _ => none
  | .custom _ _ _ => none
  | .wrapErr _ _ inner => some inner
  | .sErr _ inner _ _ => some inner
  | .serr _ inner _ _ _ => some inner

/-- `errors.Is`: walk the chain comparing interface identity at each
link (no error type in this library implements an `Is` method). -/
def errorsIs : GoError → GoError → Bool
  | .base i m, t => goId (.base i m) == goId t
  | .custom i m v, t => goId (.custom i m v) == goId t
  | .wrapErr i m inner, t => goId (.wrapErr i m inner) == goId t || errorsIs inner t
  | .sErr i inner am o, t => goId (.sErr i inner am o) == goId t || errorsIs inner t
  | .serr i inner am o st, t => goId (.serr i inner am o st) == goId t || errorsIs inner t

/-- `errors.As(err, &sErr)` for the errors.go `*sError`: origin of the
first `sErr` node in the chain. -/
def asSErrOrigin : GoError → Option Origin
  | .sErr _ _ _ o => some o
  | .wrapErr _ _ inner => asSErrOrigin inner
  | .serr _ inner _ _ _ => asSErrOrigin inner
  | .base _ _ => none
  | .custom _ _ _ => none

/-- `errors.As(err, &sErr)` for the serror `*sError`: origin and stack of
the first `serr` node in the chain. -/
def asSerrData : GoError → Option (Origin × List Origin)
  | .serr _ _ _ o st => some (o, st)
  | .wrapErr _ _ inner => asSerrData inner
  | .sErr _ inner _ _ => asSerrData inner
  | .base _ _ => none
  | .custom _ _ _ => none

/-- The `error` group appended by `sError.LogValue` in src/errors.go:
message, plus the origin when it is non-empty. -/
def sErrGroup (inner : GoError) (org : Origin) : SAttr :=
  if org.emptyB then (errKey, .group [(msgKey, .str (errText inner))])
  else (errKey, .group [(msgKey, .str (errText inner)), (errOriginKey, .str org.render)])

/-- The `error` group appended by the serror variant's `LogValue`:
message, plus the rendered stack when the origin is non-empty. -/
def serrGroup (inner : GoError) (org : Origin) (st : List Origin) : SAttr :=
  if org.emptyB then (errKey, .group [(msgKey, .str (errText inner))])
  else (errKey, .group [(msgKey, .str (errText inner)), (stackKey, .str (stackRender st))])

/-- The `slog.LogValuer` capability: `none` when the error does not
implement `LogValue`, otherwise the value it returns.  Both structured
error types render their attributes plus the error group, sorted by
key. -/
def logValueOf : GoError → Option SValue
  | .sErr _ inner attrs org => some (.group (sortByKey (attrs ++ [sErrGroup inner org])))
  | .serr _ inner attrs org st => some (.group (sortByKey (attrs ++ [serrGroup inner org st])))
  | .custom _ _ ov => ov
  | .base _ _ => none
  | .wrapErr _ _ _ => none

/-- `internal.logAttrsFromError`: expand a group-rendering LogValuer,
contribute nothing for a non-LogValuer, and panic (`none`) when the
rendering is not a group. -/
def logAttrsFromError (e : GoError) : Option (List SAttr) :=
  match logValueOf e with
  | some (.group l) => some l
  | some _ => none
  | none => some []

/-- The heap of context attribute maps.  Go contexts store
`map[string]slog.Attr` by reference; contexts hold an index into this
heap. -/
structure Heap where
  maps : List AttrMap

/-- A `context.Context` as this library observes it: the reference to
the attribute map stored under `logAttrCtxKey`, when one is stored. -/
structure GoCtx where
  ref : Option Nat

/-- `internal.logAttrsFromContext`: the stored map, or a fresh empty one. -/
def logAttrsFromContext (h : Heap) (c : GoCtx) : AttrMap :=
  match c.ref with
  | some r => h.maps.getD r []
  | none => []

/-- One argument item of the variadic `args ...any` list. -/
inductive Item where
  | str : String → Item
  | ctx : GoCtx → Item
  | err : GoError → Item
  | attr : SAttr → Item
  | other : SValue → Item

/-- `slog.Any(key, item)`: the value an item renders to when used in the
value position of a key/value pair.  Contexts, errors and attributes in
value position are boxed opaquely by slog; the claims never observe
their payloads, so the model uses an opaque scalar for them. -/
def itemValue : Item → SValue
  | .str s => .str s
  | .other v => v
  | .ctx _ => .str "!OPAQUE"
  | .err _ => .str "!OPAQUE"
  | .attr _ => .str "!OPAQUE"

/-- Processing of one produced attribute against the running map in
`internal.ParseLogArgs`: skip empty groups, inline the members of an
unnamed group, panic (`none`) on an unnamed non-group, insert
otherwise. -/
def procAttr (am : AttrMap) (a : SAttr) : Option AttrMap :=
  if isEmptyGroup a.2 then some am
  else if a.1 = "" then
    match a.2 with
    | .group l => some (insertAll am l)
    | _ => none
  else some (insertAttr am a.1 a.2)

/-- Process a list of produced attributes in order. -/
def procAttrs : List SAttr → AttrMap → Option AttrMap
  | [], am => some am
  | a :: rest, am =>
    match procAttr am a with
    | none => none
    | some am2 => procAttrs rest am2

/-- The main loop of `internal.ParseLogArgs` fused with
`internal.argsToAttr`: dispatch on the head item, convert it to
attributes, process them, continue with the remaining items. -/
def parseLoop (h : Heap) : List Item → AttrMap → Option AttrMap
  | [], am => some am
  | .str s :: [], am => procAttrs [(badKey, .str s)] am
  | .str s :: v :: rest, am =>
    match procAttrs [(s, itemValue v)] am with
    | none => none
    | some am2 => parseLoop h rest am2
  | .ctx c :: rest, am =>
    match procAttrs (logAttrsFromContext h c) am with
    | none => none
    | some am2 => parseLoop h rest am2
  | .err e :: rest, am =>
    match logAttrsFromError e with
    | none => none
    | some attrs =>
      match procAttrs attrs am with
      | none => none
      | some am2 => parseLoop h rest am2
  | .attr a :: rest, am =>
    match procAttrs [a] am with
    | none => none
    | some am2 => parseLoop h rest am2
  | .other v :: rest, am =>
    match procAttrs [(badKey, v)] am with
    | none => none
    | some am2 => parseLoop h rest am2

/-- `internal.ParseLogArgs`: normalize an argument list into an
attribute map (`none` is a panic). -/
def ParseLogArgs (h : Heap) (args : List Item) : Option AttrMap :=
  parseLoop h args []

/-- `internal.ContextWithLogArgs`: obtain the map held by the context
(by reference when one is stored), insert the normalized arguments into
it, and return a context carrying that map.  When the parent already
stores a map, the insertion happens on the shared heap cell. -/
def ContextWithLogArgs (h : Heap) (c : GoCtx) (args : List Item) :
    Option (Heap × GoCtx) :=
  match ParseLogArgs h args with
  | none => none
  | some newAttrs =>
    match c.ref with
    | some r =>
      some (⟨h.maps.set r (insertAll (h.maps.getD r []) newAttrs)⟩, c)
    | none =>
      some (⟨h.maps ++ [insertAll [] newAttrs]⟩, ⟨some h.maps.length⟩)

/-- The attribute view of a context as rendered by its consumers
(`loghelper.Attr(ctx)` and the normalizer expansion both read the stored
map; rendering sorts by key). -/
def flattenCtx (h : Heap) (c : GoCtx) : List SAttr :=
  sortByKey (logAttrsFromContext h c)

namespace Errs

/-- `errors.New` (src/errors.go): normalize the arguments; with an empty
set return a plain `errors.New(message)`, otherwise a `*sError` carrying
the attributes and the captured origin.  `org` stands for the origin
`runtime.Caller` produces at this call site and `σ` is the allocation
counter. -/
def New (h : Heap) (m : String) (args : List Item) (org : Origin) (σ : Nat) :
    Option (GoError × Nat) :=
  match ParseLogArgs h args with
  | none => none
  | some am =>
    if am.length < 1 then some (.base σ m, σ + 1)
    else some (.sErr (σ + 1) (.base σ m) am org, σ + 2)

/-- `errors.Wrap` (src/errors.go): nil in, nil out; otherwise normalize
the wrapped error followed by the explicit arguments, dropping the
reserved `error` key; with an empty set return the plain
`fmt.Errorf("%s: %w", ...)` link, otherwise a `*sError` reusing the
origin of the first structured error in the chain when there is one. -/
def Wrap (h : Heap) (err : Option GoError) (m : String) (args : List Item)
    (org : Origin) (σ : Nat) : Option (Option GoError × Nat) :=
  match err with
  | none => some (none, σ)
  | some e =>
    match ParseLogArgs h (.err e :: args) with
    | none => none
    | some am0 =>
      if (am0.filter (fun (a : SAttr) => a.1 != errKey)).length < 1 then
        some (some (.wrapErr σ m e), σ + 1)
      else
        match asSErrOrigin e with
        | some o =>
          some (some (.sErr (σ + 1) (.wrapErr σ m e)
            (am0.filter (fun (a : SAttr) => a.1 != errKey)) o), σ + 2)
        | none =>
          some (some (.sErr (σ + 1) (.wrapErr σ m e)
            (am0.filter (fun (a : SAttr) => a.1 != errKey)) org), σ + 2)

end Errs

namespace Serror

/-- `serror.New`: like `errors.New` but the structured error also starts
a one-entry stack at the captured origin. -/
def New (h : Heap) (m : String) (args : List Item) (org : Origin) (σ : Nat) :
    Option (GoError × Nat) :=
  match ParseLogArgs h args with
  | none => none
  | some am =>
    if am.length < 1 then some (.base σ m, σ + 1)
    else some (.serr (σ + 1) (.base σ m) am org [org], σ + 2)

/-- `serror.Wrap`: like `errors.Wrap`, and when the chain already holds a
structured error its origin is reused and its stack is extended by the
freshly captured origin; otherwise a fresh origin and a one-entry
stack. -/
def Wrap (h : Heap) (err : Option GoError) (m : String) (args : List Item)
    (org : Origin) (σ : Nat) : Option (Option GoError × Nat) :=
  match err with
  | none => some (none, σ)
  | some e =>
    match ParseLogArgs h (.err e :: args) with
    | none => none
    | some am0 =>
      if (am0.filter (fun (a : SAttr) => a.1 != errKey)).length < 1 then
        some (some (.wrapErr σ m e), σ + 1)
      else
        match asSerrData e with
        | some (o, st) =>
          some (some (.serr (σ + 1) (.wrapErr σ m e)
            (am0.filter (fun (a : SAttr) => a.1 != errKey)) o (st ++ [org])), σ + 2)
        | none =>
          some (some (.serr (σ + 1) (.wrapErr σ m e)
            (am0.filter (fun (a : SAttr) => a.1 != errKey)) org [org]), σ + 2)

end Serror

namespace Loghelper

/-- `loghelper.Attr`: normalize the arguments; zero results give the
zero attribute, a single result is returned as-is, two or more are
wrapped in an unnamed group sorted by key. -/
def Attr (h : Heap) (args : List Item) : Option SAttr :=
  match ParseLogArgs h args with
  | none => none
  | some [] => some ("", .zero)
  | some [a] => some a
  | some (a :: b :: rest) => some ("", .group (sortByKey (a :: b :: rest)))

end Loghelper

/-- The attribute set a structured error carries (empty for plain
errors). -/
def attrsOf : GoError → AttrMap
  | .sErr _ _ am _ => am
  | .serr _ _ am _ _ => am
  | _ => []

/-- The origin a structured error carries. -/
def originOf : GoError → Option Origin
  | .sErr _ _ _ o => some o
  | .serr _ _ _ o _ => some o
  | _ => none

/-- The stack a serror structured error carries. -/
def stackOf : GoError → Option (List Origin)
  | .serr _ _ _ _ st => some st
  | _ => none

/-- The effective contribution of one produced attribute to the running
map: nothing for an empty group, the members for an unnamed group,
panic for an unnamed non-group, the attribute itself otherwise. -/
def effAttr (a : SAttr) : Option (List SAttr) :=
  if isEmptyGroup a.2 then some []
  else if a.1 = "" then
    match a.2 with
    | .group l => some l
    | _ => none
  else some [a]

/-- The effective contribution of a list of produced attributes. -/
def effList : List SAttr → Option (List SAttr)
  | [] => some []
  | a :: rest =>
    match effAttr a, effList rest with
    | some l1, some l2 => some (l1 ++ l2)
    | _, _ => none

/-- Append under the panic monad. -/
def optAppend (o1 o2 : Option (List SAttr)) : Option (List SAttr) :=
  match o1, o2 with
  | some l1, some l2 => some (l1 ++ l2)
  | _, _ => none

/-- The flat, ordered stream of effective attributes a normalization
call processes; `ParseLogArgs` is last-write-wins insertion over this
stream (`parse_eq_stream`). -/
def streamOf (h : Heap) : List Item → Option (List SAttr)
  | [] => some []
  | .str s :: [] => effList [(badKey, .str s)]
  | .str s :: v :: rest => optAppend (effList [(s, itemValue v)]) (streamOf h rest)
  | .ctx c :: rest => optAppend (effList (logAttrsFromContext h c)) (streamOf h rest)
  | .err e :: rest =>
    optAppend ((logAttrsFromError e).bind effList) (streamOf h rest)
  | .attr a :: rest => optAppend (effList [a]) (streamOf h rest)
  | .other v :: rest => optAppend (effList [(badKey, v)]) (streamOf h rest)

/-- The three-step wrap scenario of C7: `New` with one attribute, then
two `Wrap`s with one attribute each (errors.go variant). -/
def chainC7 (h : Heap) (m1 m2 m3 ka kb kc : String) (va vb vc : SValue)
    (org1 org2 org3 : Origin) (σ : Nat) : Option GoError :=
  match Errs.New h m1 [.attr (ka, va)] org1 σ with
  | some (e1, σ1) =>
    match Errs.Wrap h (some e1) m2 [.attr (kb, vb)] org2 σ1 with
    | some (some e2, σ2) =>
      match Errs.Wrap h (some e2) m3 [.attr (kc, vc)] org3 σ2 with
      | some (some e3, _) => some e3
      | _ => none
    | _ => none
  | _ => none

/-- The top-level attribute names of an error's self-rendering, when the
rendering exists and is a group. -/
def lvKeys (e : GoError) : Option (List String) :=
  match logValueOf e with
  | some (.group l) => some (l.map Prod.fst)
  | _ => none

/-- The structured-error payload a successful non-nil `Wrap` call
returns, when it returns one. -/
def wrapResultE (h : Heap) (e : GoError) (m : String) (args : List Item)
    (org : Origin) (σ : Nat) : Option GoError :=
  match Errs.Wrap h (some e) m args org σ with
  | some (some r, _) => some r
  | _ => none

/-- An empty heap: no context map has been allocated. -/
def hEmpty : Heap := ⟨[]⟩

/-- A concrete non-empty origin. -/
def orgA : Origin := ⟨"a.go", 10⟩

/-- A second concrete origin. -/
def orgB : Origin := ⟨"b.go", 20⟩

/-- A third concrete origin. -/
def orgC : Origin := ⟨"c.go", 30⟩

/-- A concrete external error without the LogValuer capability. -/
def eNoLV : GoError := .custom 100 "io-err" none

/-- A concrete external error whose LogValue renders a non-group value. -/
def eBadLV : GoError := .custom 101 "bad-lv" (some (.str "oops"))

/-! ## Basic lemmas about the attribute-map primitives -/

theorem orO_some {v : SValue} {b : Option SValue} : orO (some v) b = some v := rfl

theorem orO_none {b : Option SValue} : orO none b = b := rfl

theorem orO_right_none : ∀ a : Option SValue, orO a none = a
  | some _ => rfl
  | none => rfl

theorem orO_assoc (a b c : Option SValue) : orO (orO a b) c = orO a (orO b c) := by
  cases a <;> rfl

theorem lookupA_insertAttr (m : AttrMap) (k : String) (v : SValue) (k' : String) :
    lookupA (insertAttr m k v) k' = if k = k' then some v else lookupA m k' := by
  induction m with
  | nil => simp [insertAttr, lookupA]
  | cons a rest ih =>
    obtain ⟨k0, v0⟩ := a
    by_cases h0 : k0 = k
    · subst h0
      by_cases h1 : k0 = k' <;> simp [insertAttr, lookupA, h1]
    · by_cases h1 : k0 = k'
      · subst h1
        have hk : ¬ k = k0 := fun h => h0 (Eq.symm h)
        simp [insertAttr, lookupA, h0, hk]
      · simp [insertAttr, lookupA, h0, h1, ih]

theorem mem_keys_insertAttr {m : AttrMap} {k k' : String} {v : SValue} :
    k' ∈ keysOf (insertAttr m k v) ↔ k' = k ∨ k' ∈ keysOf m := by
  induction m with
  | nil => simp [insertAttr, keysOf]
  | cons a rest ih =>
    obtain ⟨k0, v0⟩ := a
    by_cases h0 : k0 = k
    · subst h0
      simp only [insertAttr, if_pos rfl, keysOf, List.map_cons, List.mem_cons, if_true]
      tauto
    · simp only [insertAttr, if_neg h0, keysOf, List.map_cons, List.mem_cons] at ih ⊢
      rw [ih]
      tauto

theorem nodup_keys_insertAttr {m : AttrMap} {k : String} {v : SValue}
    (hm : (keysOf m).Nodup) : (keysOf (insertAttr m k v)).Nodup := by
  induction m with
  | nil => simp [insertAttr, keysOf]
  | cons a rest ih =>
    obtain ⟨k0, v0⟩ := a
    simp only [keysOf, List.map_cons, List.nodup_cons] at hm
    by_cases h0 : k0 = k
    · subst h0
      simp only [insertAttr, if_pos rfl, keysOf, List.map_cons, List.nodup_cons, if_true]
      exact hm
    · simp only [insertAttr, if_neg h0, keysOf, List.map_cons, List.nodup_cons]
      refine ⟨fun hmem => ?_, ih hm.2⟩
      rcases mem_keys_insertAttr.1 hmem with h | h
      · exact h0 h
      · exact hm.1 h

theorem insertAll_nil (m : AttrMap) : insertAll m [] = m := rfl

theorem insertAll_cons (m : AttrMap) (a : SAttr) (s : List SAttr) :
    insertAll m (a :: s) = insertAll (insertAttr m a.1 a.2) s := rfl

theorem insertAll_append (m : AttrMap) (s1 s2 : List SAttr) :
    insertAll m (s1 ++ s2) = insertAll (insertAll m s1) s2 := by
  simp [insertAll, List.foldl_append]

theorem lookupA_insertAll (s : List SAttr) (m : AttrMap) (k : String) :
    lookupA (insertAll m s) k = orO (lastVal s k) (lookupA m k) := by
  induction s generalizing m with
  | nil => simp [insertAll, lastVal, orO_none]
  | cons a s ih =>
    rw [insertAll_cons, ih, lastVal]
    cases hl : lastVal s k with
    | some v => simp [orO_some]
    | none =>
      simp only [orO_none]
      rw [lookupA_insertAttr]
      by_cases h : a.1 = k
      · simp [h, orO_some]
      · simp only [if_neg h, orO_none]

theorem lastVal_append (s1 s2 : List SAttr) (k : String) :
    lastVal (s1 ++ s2) k = orO (lastVal s2 k) (lastVal s1 k) := by
  induction s1 with
  | nil => simp [lastVal, orO_right_none]
  | cons a s1 ih =>
    show orO (lastVal (s1 ++ s2) k) _ = _
    rw [ih, orO_assoc]
    rfl

theorem lastVal_eq_none_iff {s : List SAttr} {k : String} :
    lastVal s k = none ↔ k ∉ keysOf s := by
  induction s with
  | nil => simp [lastVal, keysOf]
  | cons a s ih =>
    simp only [lastVal, keysOf, List.map_cons, List.mem_cons]
    cases hl : lastVal s k with
    | some v =>
      simp only [orO_some]
      have hks : k ∈ List.map Prod.fst s := by
        by_contra hk
        rw [ih.2 hk] at hl
        cases hl
      constructor
      · intro h; cases h
      · intro h; exact absurd (Or.inr hks) h
    | none =>
      simp only [orO_none]
      have hks : k ∉ List.map Prod.fst s := ih.1 hl
      by_cases h : a.1 = k
      · subst h
        simp
      · rw [if_neg h]
        constructor
        · intro _
          rintro (h1 | h1)
          · exact h (Eq.symm h1)
          · exact hks h1
        · intro _
          rfl

theorem mem_keys_iff_lookupA {m : AttrMap} {k : String} :
    k ∈ keysOf m ↔ (lookupA m k).isSome := by
  induction m with
  | nil => simp [keysOf, lookupA]
  | cons a rest ih =>
    obtain ⟨k0, v0⟩ := a
    simp only [keysOf, List.map_cons, List.mem_cons, lookupA] at ih ⊢
    by_cases h : k0 = k
    · subst h
      simp
    · rw [if_neg h, ← ih]
      constructor
      · rintro (h1 | h1)
        · exact absurd (Eq.symm h1) h
        · exact h1
      · intro h1
        exact Or.inr h1

theorem nodup_keys_insertAll {m : AttrMap} (s : List SAttr)
    (hm : (keysOf m).Nodup) : (keysOf (insertAll m s)).Nodup := by
  induction s generalizing m with
  | nil => exact hm
  | cons a s ih =>
    rw [insertAll_cons]
    exact ih (nodup_keys_insertAttr hm)

theorem lookupA_eq_some_iff_mem {m : AttrMap} (hm : (keysOf m).Nodup)
    {k : String} {v : SValue} : lookupA m k = some v ↔ (k, v) ∈ m := by
  induction m with
  | nil => simp [lookupA]
  | cons a rest ih =>
    obtain ⟨k0, v0⟩ := a
    simp only [keysOf, List.map_cons, List.nodup_cons] at hm
    simp only [lookupA, List.mem_cons]
    by_cases h : k0 = k
    · subst h
      simp only [if_pos rfl]
      constructor
      · intro h1
        cases h1
        exact Or.inl rfl
      · rintro (h1 | h1)
        · cases h1
          rfl
        · have : k0 ∈ List.map Prod.fst rest :=
            List.mem_map.2 ⟨(k0, v), h1, rfl⟩
          exact absurd this hm.1
    · rw [if_neg h, ih hm.2]
      constructor
      · exact Or.inr
      · rintro (h1 | h1)
        · cases h1
          exact absurd rfl h
        · exact h1

theorem nodup_keys_of_perm {m1 m2 : AttrMap} (hp : m1.Perm m2)
    (h1 : (keysOf m1).Nodup) : (keysOf m2).Nodup :=
  ((hp.map Prod.fst).nodup_iff).1 h1

theorem lookupA_perm {m1 m2 : AttrMap} (hp : m1.Perm m2)
    (h1 : (keysOf m1).Nodup) (k : String) : lookupA m1 k = lookupA m2 k := by
  have h2 : (keysOf m2).Nodup := nodup_keys_of_perm hp h1
  cases hl : lookupA m1 k with
  | some v =>
    exact ((lookupA_eq_some_iff_mem h2).2 (hp.mem_iff.1 ((lookupA_eq_some_iff_mem h1).1 hl))).symm
  | none =>
    cases hl2 : lookupA m2 k with
    | none => rfl
    | some v =>
      have hmem : (k, v) ∈ m1 := hp.mem_iff.2 ((lookupA_eq_some_iff_mem h2).1 hl2)
      rw [(lookupA_eq_some_iff_mem h1).2 hmem] at hl
      cases hl

theorem lastVal_eq_lookupA {s : List SAttr} (hs : (keysOf s).Nodup) (k : String) :
    lastVal s k = lookupA s k := by
  induction s with
  | nil => rfl
  | cons a s ih =>
    obtain ⟨k0, v0⟩ := a
    simp only [keysOf, List.map_cons, List.nodup_cons] at hs
    simp only [lastVal, lookupA]
    by_cases h : k0 = k
    · subst h
      have hk : k0 ∉ keysOf s := hs.1
      rw [lastVal_eq_none_iff.2 hk, orO_none]
      simp
    · rw [if_neg h, orO_right_none, if_neg h]
      exact ih hs.2

theorem lookupA_filterKey (m : AttrMap) (p : String → Bool) (k : String) :
    lookupA (m.filter fun a => p a.1) k = if p k then lookupA m k else none := by
  induction m with
  | nil => simp [lookupA]
  | cons a rest ih =>
    obtain ⟨k0, v0⟩ := a
    cases hp : p k0 with
    | true =>
      rw [List.filter_cons_of_pos (by simpa using hp)]
      simp only [lookupA]
      by_cases h : k0 = k
      · subst h
        simp [hp]
      · rw [if_neg h, if_neg h, ih]
    | false =>
      rw [List.filter_cons_of_neg (by simpa using hp), ih]
      by_cases hk : p k
      · simp only [if_pos hk, lookupA]
        have hne : ¬ k0 = k := by
          intro h
          rw [h] at hp
          simp [hp] at hk
        rw [if_neg hne]
      · simp [hk]

theorem keys_filter_sublist (m : AttrMap) (p : SAttr → Bool) :
    (keysOf (m.filter p)).Sublist (keysOf m) := by
  unfold keysOf
  exact (List.filter_sublist m).map Prod.fst

theorem nodup_keys_filter {m : AttrMap} (p : SAttr → Bool)
    (hm : (keysOf m).Nodup) : (keysOf (m.filter p)).Nodup :=
  (keys_filter_sublist m p).nodup hm

theorem mem_keys_filterKey {m : AttrMap} {p : String → Bool} {k : String} :
    k ∈ keysOf (m.filter fun a => p a.1) ↔ p k ∧ k ∈ keysOf m := by
  constructor
  · intro h
    rcases List.mem_map.1 h with ⟨a, ha, rfl⟩
    have hpa := List.of_mem_filter ha
    exact ⟨by simpa using hpa, List.mem_map.2 ⟨a, List.mem_of_mem_filter ha, rfl⟩⟩
  · rintro ⟨hp, hk⟩
    rcases List.mem_map.1 hk with ⟨a, ha, rfl⟩
    exact List.mem_map.2 ⟨a, List.mem_filter.2 ⟨ha, by simpa using hp⟩, rfl⟩

/-! ## The normalizer as last-write-wins insertion over the effective stream -/

theorem procAttr_eq_eff (am : AttrMap) (a : SAttr) :
    procAttr am a = (effAttr a).map (fun l => insertAll am l) := by
  unfold procAttr effAttr
  by_cases he : isEmptyGroup a.2
  · simp [he, insertAll]
  · simp only [he, if_false, Bool.false_eq_true]
    by_cases hk : a.1 = ""
    · simp only [if_pos hk]
      cases a.2 <;> simp
    · simp only [if_neg hk, Option.map_some']
      rfl

theorem procAttrs_eq_eff (L : List SAttr) (am : AttrMap) :
    procAttrs L am = (effList L).map (fun l => insertAll am l) := by
  induction L generalizing am with
  | nil => rfl
  | cons a L ih =>
    show (match procAttr am a with
          | none => none
          | some am2 => procAttrs L am2) = _
    rw [procAttr_eq_eff]
    cases ha : effAttr a with
    | none => simp [effList, ha]
    | some l1 =>
      simp only [Option.map_some']
      rw [ih]
      show (effList L).map _ = (effList (a :: L)).map _
      cases hL : effList L with
      | none => simp [effList, ha, hL]
      | some l2 =>
        simp only [effList, ha, hL, Option.map_some']
        rw [insertAll_append]

theorem parse_eq_stream (h : Heap) :
    ∀ (args : List Item) (am : AttrMap),
      parseLoop h args am = (streamOf h args).map (fun s => insertAll am s)
  | [], _ => rfl
  | .str s :: [], am => by
    show procAttrs [(badKey, .str s)] am = _
    rw [procAttrs_eq_eff]
    rfl
  | .str s :: v :: rest, am => by
    show (match procAttrs [(s, itemValue v)] am with
          | none => none
          | some am2 => parseLoop h rest am2) = _
    rw [procAttrs_eq_eff]
    cases h1 : effList [(s, itemValue v)] with
    | none => simp [streamOf, optAppend, h1]
    | some l1 =>
      simp only [Option.map_some']
      rw [parse_eq_stream h rest]
      simp only [streamOf, optAppend, h1]
      cases h2 : streamOf h rest with
      | none => rfl
      | some l2 =>
        simp only [Option.map_some']
        rw [insertAll_append]
  | .ctx c :: rest, am => by
    show (match procAttrs (logAttrsFromContext h c) am with
          | none => none
          | some am2 => parseLoop h rest am2) = _
    rw [procAttrs_eq_eff]
    cases h1 : effList (logAttrsFromContext h c) with
    | none => simp [streamOf, optAppend, h1]
    | some l1 =>
      simp only [Option.map_some']
      rw [parse_eq_stream h rest]
      simp only [streamOf, optAppend, h1]
      cases h2 : streamOf h rest with
      | none => rfl
      | some l2 =>
        simp only [Option.map_some']
        rw [insertAll_append]
  | .err e :: rest, am => by
    show (match logAttrsFromError e with
          | none => none
          | some attrs =>
            match procAttrs attrs am with
            | none => none
            | some am2 => parseLoop h rest am2) = _
    cases he : logAttrsFromError e with
    | none => simp [streamOf, optAppend, he]
    | some attrs =>
      simp only []
      rw [procAttrs_eq_eff]
      cases h1 : effList attrs with
      | none => simp [streamOf, optAppend, he, h1]
      | some l1 =>
        simp only [Option.map_some']
        rw [parse_eq_stream h rest]
        simp only [streamOf, optAppend, he, h1, Option.bind]
        cases h2 : streamOf h rest with
        | none => rfl
        | some l2 =>
          simp only [Option.map_some']
          rw [insertAll_append]
  | .attr a :: rest, am => by
    show (match procAttrs [a] am with
          | none => none
          | some am2 => parseLoop h rest am2) = _
    rw [procAttrs_eq_eff]
    cases h1 : effList [a] with
    | none => simp [streamOf, optAppend, h1]
    | some l1 =>
      simp only [Option.map_some']
      rw [parse_eq_stream h rest]
      simp only [streamOf, optAppend, h1]
      cases h2 : streamOf h rest with
      | none => rfl
      | some l2 =>
        simp only [Option.map_some']
        rw [insertAll_append]
  | .other v :: rest, am => by
    show (match procAttrs [(badKey, v)] am with
          | none => none
          | some am2 => parseLoop h rest am2) = _
    rw [procAttrs_eq_eff]
    cases h1 : effList [(badKey, v)] with
    | none => simp [streamOf, optAppend, h1]
    | some l1 =>
      simp only [Option.map_some']
      rw [parse_eq_stream h rest]
      simp only [streamOf, optAppend, h1]
      cases h2 : streamOf h rest with
      | none => rfl
      | some l2 =>
        simp only [Option.map_some']
        rw [insertAll_append]

theorem ParseLogArgs_eq_stream (h : Heap) (args : List Item) :
    ParseLogArgs h args = (streamOf h args).map (fun s => insertAll [] s) :=
  parse_eq_stream h args []

theorem ParseLogArgs_some {h : Heap} {args : List Item} {am : AttrMap}
    (hp : ParseLogArgs h args = some am) :
    ∃ s, streamOf h args = some s ∧ am = insertAll [] s := by
  rw [ParseLogArgs_eq_stream] at hp
  cases hs : streamOf h args with
  | none => rw [hs] at hp; cases hp
  | some s =>
    rw [hs] at hp
    cases hp
    exact ⟨s, rfl, rfl⟩

theorem parse_nodup {h : Heap} {args : List Item} {am : AttrMap}
    (hp : ParseLogArgs h args = some am) : (keysOf am).Nodup := by
  rcases ParseLogArgs_some hp with ⟨s, _, rfl⟩
  exact nodup_keys_insertAll s (by simp [keysOf])

theorem lookupA_ParseLogArgs {h : Heap} {args : List Item} {am : AttrMap}
    {s : List SAttr} (hp : ParseLogArgs h args = some am)
    (hs : streamOf h args = some s) (k : String) :
    lookupA am k = lastVal s k := by
  rcases ParseLogArgs_some hp with ⟨s2, hs2, rfl⟩
  rw [hs] at hs2
  cases hs2
  rw [lookupA_insertAll]
  cases lastVal s k <;> simp [orO_some, orO_none, lookupA]

/-! ## Sorting lemmas -/

theorem sortByKey_perm (l : List SAttr) : (sortByKey l).Perm l :=
  List.perm_insertionSort keyLE l

theorem sortByKey_sorted (l : List SAttr) : List.Sorted keyLE (sortByKey l) :=
  List.sorted_insertionSort keyLE l

theorem sortByKey_keys_sorted (l : List SAttr) :
    List.Sorted (fun x y => strLE x y = true) (keysOf (sortByKey l)) :=
  List.Pairwise.map Prod.fst (fun _ _ hab => hab) (sortByKey_sorted l)

/-! ## Effective-stream lemmas -/

theorem effAttr_of_clean {a : SAttr} (hk : a.1 ≠ "")
    (hv : isEmptyGroup a.2 = false) : effAttr a = some [a] := by
  unfold effAttr
  rw [hv]
  simp [hk]

theorem effList_of_clean {L : List SAttr}
    (hL : ∀ a ∈ L, a.1 ≠ "" ∧ isEmptyGroup a.2 = false) : effList L = some L := by
  induction L with
  | nil => rfl
  | cons a L ih =>
    have ha := hL a (List.mem_cons_self a L)
    simp only [effList, effAttr_of_clean ha.1 ha.2,
      ih fun b hb => hL b (List.mem_cons_of_mem a hb)]
    rfl

/-- Lookup of a key in a map filtered to exclude exactly that key. -/
theorem lookupA_filter_ne (m : AttrMap) (k0 : String) :
    lookupA (m.filter fun a => a.1 != k0) k0 = none := by
  induction m with
  | nil => rfl
  | cons a rest ih =>
    by_cases h : a.1 = k0
    · rw [List.filter_cons_of_neg (by simp [h])]
      exact ih
    · rw [List.filter_cons_of_pos (by simp [h])]
      simp only [lookupA, if_neg h]
      exact ih

/-- Unfolding equation for `Errs.New` once the parse result is known. -/
theorem ErrsNew_eq {h : Heap} {args : List Item} {am : AttrMap}
    (m : String) (org : Origin) (σ : Nat)
    (hp : ParseLogArgs h args = some am) :
    Errs.New h m args org σ =
      if am.length < 1 then some (.base σ m, σ + 1)
      else some (.sErr (σ + 1) (.base σ m) am org, σ + 2) := by
  show (match ParseLogArgs h args with
        | none => none
        | some am =>
          if am.length < 1 then some (GoError.base σ m, σ + 1)
          else some (.sErr (σ + 1) (.base σ m) am org, σ + 2)) = _
  rw [hp]

/-- Unfolding equation for `Errs.Wrap` on a non-nil error once the parse
result is known. -/
theorem ErrsWrap_eq {h : Heap} {e : GoError} {args : List Item} {am0 : AttrMap}
    (m : String) (org : Origin) (σ : Nat)
    (hp : ParseLogArgs h (.err e :: args) = some am0) :
    Errs.Wrap h (some e) m args org σ =
      (if (am0.filter (fun (a : SAttr) => a.1 != errKey)).length < 1 then
        some (some (.wrapErr σ m e), σ + 1)
      else
        match asSErrOrigin e with
        | some o =>
          some (some (.sErr (σ + 1) (.wrapErr σ m e)
            (am0.filter (fun (a : SAttr) => a.1 != errKey)) o), σ + 2)
        | none =>
          some (some (.sErr (σ + 1) (.wrapErr σ m e)
            (am0.filter (fun (a : SAttr) => a.1 != errKey)) org), σ + 2)) := by
  show (match ParseLogArgs h (.err e :: args) with
        | none => none
        | some am0 =>
          if (am0.filter (fun (a : SAttr) => a.1 != errKey)).length < 1 then
            some (some (GoError.wrapErr σ m e), σ + 1)
          else
            match asSErrOrigin e with
            | some o =>
              some (some (GoError.sErr (σ + 1) (.wrapErr σ m e)
                (am0.filter (fun (a : SAttr) => a.1 != errKey)) o), σ + 2)
            | none =>
              some (some (GoError.sErr (σ + 1) (.wrapErr σ m e)
                (am0.filter (fun (a : SAttr) => a.1 != errKey)) org), σ + 2)) = _
  rw [hp]

/-- Unfolding equation for `Serror.New` once the parse result is known. -/
theorem SerrorNew_eq {h : Heap} {args : List Item} {am : AttrMap}
    (m : String) (org : Origin) (σ : Nat)
    (hp : ParseLogArgs h args = some am) :
    Serror.New h m args org σ =
      if am.length < 1 then some (.base σ m, σ + 1)
      else some (.serr (σ + 1) (.base σ m) am org [org], σ + 2) := by
  show (match ParseLogArgs h args with
        | none => none
        | some am =>
          if am.length < 1 then some (GoError.base σ m, σ + 1)
          else some (.serr (σ + 1) (.base σ m) am org [org], σ + 2)) = _
  rw [hp]

/-- Unfolding equation for `Serror.Wrap` on a non-nil error once the
parse result is known. -/
theorem SerrorWrap_eq {h : Heap} {e : GoError} {args : List Item} {am0 : AttrMap}
    (m : String) (org : Origin) (σ : Nat)
    (hp : ParseLogArgs h (.err e :: args) = some am0) :
    Serror.Wrap h (some e) m args org σ =
      (if (am0.filter (fun (a : SAttr) => a.1 != errKey)).length < 1 then
        some (some (.wrapErr σ m e), σ + 1)
      else
        match asSerrData e with
        | some (o, st) =>
          some (some (.serr (σ + 1) (.wrapErr σ m e)
            (am0.filter (fun (a : SAttr) => a.1 != errKey)) o (st ++ [org])), σ + 2)
        | none =>
          some (some (.serr (σ + 1) (.wrapErr σ m e)
            (am0.filter (fun (a : SAttr) => a.1 != errKey)) org [org]), σ + 2)) := by
  show (match ParseLogArgs h (.err e :: args) with
        | none => none
        | some am0 =>
          if (am0.filter (fun (a : SAttr) => a.1 != errKey)).length < 1 then
            some (some (GoError.wrapErr σ m e), σ + 1)
          else
            match asSerrData e with
            | some (o, st) =>
              some (some (GoError.serr (σ + 1) (.wrapErr σ m e)
                (am0.filter (fun (a : SAttr) => a.1 != errKey)) o (st ++ [org])), σ + 2)
            | none =>
              some (some (GoError.serr (σ + 1) (.wrapErr σ m e)
                (am0.filter (fun (a : SAttr) => a.1 != errKey)) org [org]), σ + 2)) = _
  rw [hp]

/-- Lookup of another key is unaffected by filtering one key out. -/
theorem lookupA_filter_ne_key (m : AttrMap) (k0 k : String) (hk : k ≠ k0) :
    lookupA (m.filter fun (a : SAttr) => a.1 != k0) k = lookupA m k := by
  induction m with
  | nil => rfl
  | cons a rest ih =>
    obtain ⟨ka, va⟩ := a
    by_cases h : ka = k0
    · rw [List.filter_cons_of_neg (by simp [h])]
      rw [ih]
      have hne : ¬ ka = k := fun hh => hk (hh ▸ h)
      simp only [lookupA, if_neg hne]
    · rw [List.filter_cons_of_pos (by simp [h])]
      simp only [lookupA]
      by_cases h2 : ka = k
      · rw [if_pos h2, if_pos h2]
      · rw [if_neg h2, if_neg h2, ih]

/-! ## Claim theorems -/

/-- Claim C1 (code bug witness): building a child context from a parent
that already stores attributes mutates the map shared with the parent,
so the parent's flattened view changes.  Starting from the empty
context, extending with x=1 yields a context whose view is exactly x=1;
extending that context again with y=2 makes the original context's view
x=1, y=2 — not the x=1 it held before. -/
theorem c1_context_extension_mutates_parent :
    ContextWithLogArgs hEmpty ⟨none⟩ [.str "x", .other (.int 1)] =
      some (⟨[[("x", .int 1)]]⟩, ⟨some 0⟩) ∧
    flattenCtx ⟨[[("x", .int 1)]]⟩ ⟨some 0⟩ = [("x", .int 1)] ∧
    ContextWithLogArgs ⟨[[("x", .int 1)]]⟩ ⟨some 0⟩ [.str "y", .other (.int 2)] =
      some (⟨[[("x", .int 1), ("y", .int 2)]]⟩, ⟨some 0⟩) ∧
    flattenCtx ⟨[[("x", .int 1), ("y", .int 2)]]⟩ ⟨some 0⟩ =
      [("x", .int 1), ("y", .int 2)] ∧
    flattenCtx ⟨[[("x", .int 1), ("y", .int 2)]]⟩ ⟨some 0⟩ ≠ [("x", .int 1)] :=
  ⟨rfl, rfl, rfl, rfl,
    fun hcontra => absurd (congrArg List.length hcontra) (by decide)⟩

/-- Claim C2 counterexample: `New` does not strip a caller-supplied
attribute under the reserved name; the constructed structured error's
own attribute set contains the user-supplied `error` entry. -/
theorem c2_counterexample :
    Errs.New hEmpty "m" [.attr (errKey, .str "boom")] orgA 0 =
      some (.sErr 1 (.base 0 "m") [(errKey, .str "boom")] orgA, 2) ∧
    lookupA (attrsOf (GoError.sErr 1 (.base 0 "m") [(errKey, .str "boom")] orgA))
      errKey = some (.str "boom") :=
  ⟨rfl, rfl⟩

/-- Claim C2 (amended): only `Wrap` strips the reserved `error` name
during normalization — an error constructed by `Wrap` never carries an
attribute under the reserved name; `New` performs no such stripping. -/
theorem c2_wrap_strips_reserved (h : Heap) (e : GoError) (m : String)
    (args : List Item) (org : Origin) (σ : Nat) (r : GoError) (σ2 : Nat)
    (hw : Errs.Wrap h (some e) m args org σ = some (some r, σ2)) :
    lookupA (attrsOf r) errKey = none := by
  cases hp : ParseLogArgs h (.err e :: args) with
  | none =>
    have hw2 : (none : Option (Option GoError × Nat)) = some (some r, σ2) := by
      rw [← hw]
      show _ = (match ParseLogArgs h (.err e :: args) with
        | none => none
        | some am0 =>
          if (am0.filter (fun (a : SAttr) => a.1 != errKey)).length < 1 then
            some (some (GoError.wrapErr σ m e), σ + 1)
          else
            match asSErrOrigin e with
            | some o =>
              some (some (GoError.sErr (σ + 1) (.wrapErr σ m e)
                (am0.filter (fun (a : SAttr) => a.1 != errKey)) o), σ + 2)
            | none =>
              some (some (GoError.sErr (σ + 1) (.wrapErr σ m e)
                (am0.filter (fun (a : SAttr) => a.1 != errKey)) org), σ + 2))
      rw [hp]
    cases hw2
  | some am0 =>
    rw [ErrsWrap_eq m org σ hp] at hw
    by_cases hlen : (am0.filter fun (a : SAttr) => a.1 != errKey).length < 1
    · rw [if_pos hlen] at hw
      cases hw
      rfl
    · rw [if_neg hlen] at hw
      cases hq : asSErrOrigin e with
      | some o =>
        rw [hq] at hw
        cases hw
        exact lookupA_filter_ne am0 errKey
      | none =>
        rw [hq] at hw
        cases hw
        exact lookupA_filter_ne am0 errKey

/-- Witness for C2's amended theorem at a concrete wrap. -/
theorem c2_wrap_strips_reserved_witness :
    lookupA (attrsOf (GoError.sErr 1 (.wrapErr 0 "w" eNoLV) [("k", .int 1)] orgA))
      errKey = none :=
  c2_wrap_strips_reserved hEmpty eNoLV "w"
    [.attr (errKey, .str "z"), .attr ("k", .int 1)] orgA 0
    (.sErr 1 (.wrapErr 0 "w" eNoLV) [("k", .int 1)] orgA) 2 rfl

/-- Claim C3 counterexample: two independent `New` calls with the same
message and no attributes allocate distinct plain errors, and `Is`
(identity-based chain matching) reports them unequal. -/
theorem c3_counterexample :
    Errs.New hEmpty "m" [] orgA 0 = some (.base 0 "m", 1) ∧
    Errs.New hEmpty "m" [] orgA 1 = some (.base 1 "m", 2) ∧
    errorsIs (.base 0 "m") (.base 1 "m") = false :=
  ⟨rfl, rfl, rfl⟩

/-- Claim C3 (amended): `Is` is reflexive on every error value, but two
errors built by independent `New(m)` calls (sequential allocations) are
never `Is`-equal in either direction. -/
theorem c3_is_identity :
    (∀ e : GoError, errorsIs e e = true) ∧
    (∀ (h : Heap) (m : String) (org : Origin) (σ σ1 σ2 : Nat) (e1 e2 : GoError),
      Errs.New h m [] org σ = some (e1, σ1) →
      Errs.New h m [] org σ1 = some (e2, σ2) →
      errorsIs e1 e2 = false ∧ errorsIs e2 e1 = false) := by
  constructor
  · intro e
    cases e <;> simp [errorsIs, goId]
  · intro h m org σ σ1 σ2 e1 e2 h1 h2
    have h1a : some ((GoError.base σ m), σ + 1) = some (e1, σ1) := h1
    cases h1a
    have h2a : some ((GoError.base (σ + 1) m), σ + 2) = some (e2, σ2) := h2
    cases h2a
    constructor
    · simp only [errorsIs, goId, beq_eq_false_iff_ne, ne_eq]
      omega
    · simp only [errorsIs, goId, beq_eq_false_iff_ne, ne_eq]
      omega

/-- Witness for C3's amended theorem at concrete allocations. -/
theorem c3_is_identity_witness :
    errorsIs (GoError.base 5 "m") (GoError.base 5 "m") = true ∧
    errorsIs (GoError.base 0 "q") (GoError.base 1 "q") = false ∧
    errorsIs (GoError.base 1 "q") (GoError.base 0 "q") = false :=
  ⟨c3_is_identity.1 (GoError.base 5 "m"),
   (c3_is_identity.2 hEmpty "q" orgA 0 1 2 (GoError.base 0 "q") (GoError.base 1 "q")
      rfl rfl).1,
   (c3_is_identity.2 hEmpty "q" orgA 0 1 2 (GoError.base 0 "q") (GoError.base 1 "q")
      rfl rfl).2⟩

/-- Claim C6: wrapping the absence of an error is a no-op in both the
errors.go and the serror variant — the result is the nil error and the
allocation counter is untouched. -/
theorem c6_wrap_nil (h : Heap) (m : String) (args : List Item) (org : Origin)
    (σ : Nat) :
    Errs.Wrap h none m args org σ = some (none, σ) ∧
    Serror.Wrap h none m args org σ = some (none, σ) :=
  ⟨rfl, rfl⟩

/-- Claim C8: when normalization yields an empty attribute set, `New`
returns the plain `errors.New(message)` error (text is the message, no
attributes, no cause) and `Wrap` returns the plain chain link whose text
is `message: err-text`, whose cause is the wrapped error, and which
carries no attributes — in neither case a structured wrapper. -/
theorem c8_empty_set_plain :
    (∀ (h : Heap) (m : String) (args : List Item) (org : Origin) (σ : Nat),
      ParseLogArgs h args = some [] →
      Errs.New h m args org σ = some (.base σ m, σ + 1) ∧
      errText (.base σ m) = m ∧ attrsOf (.base σ m) = [] ∧
      unwrapM (.base σ m) = none) ∧
    (∀ (h : Heap) (e : GoError) (m : String) (args : List Item) (org : Origin)
      (σ : Nat) (am0 : AttrMap),
      ParseLogArgs h (.err e :: args) = some am0 →
      am0.filter (fun (a : SAttr) => a.1 != errKey) = [] →
      Errs.Wrap h (some e) m args org σ = some (some (.wrapErr σ m e), σ + 1) ∧
      errText (.wrapErr σ m e) = m ++ ": " ++ errText e ∧
      unwrapM (.wrapErr σ m e) = some e ∧ attrsOf (.wrapErr σ m e) = []) := by
  constructor
  · intro h m args org σ hp
    refine ⟨?_, rfl, rfl, rfl⟩
    rw [ErrsNew_eq m org σ hp]
    rfl
  · intro h e m args org σ am0 hp hf
    refine ⟨?_, rfl, rfl, rfl⟩
    rw [ErrsWrap_eq m org σ hp, hf]
    rfl

/-- Witness for C8 at concrete empty-attribute calls. -/
theorem c8_empty_set_plain_witness :
    (Errs.New hEmpty "mw" [] orgA 3 = some (.base 3 "mw", 4) ∧
     errText (GoError.base 3 "mw") = "mw" ∧ attrsOf (GoError.base 3 "mw") = [] ∧
     unwrapM (GoError.base 3 "mw") = none) ∧
    (Errs.Wrap hEmpty (some eNoLV) "ww" [] orgA 3 =
       some (some (.wrapErr 3 "ww" eNoLV), 4) ∧
     errText (GoError.wrapErr 3 "ww" eNoLV) = "ww" ++ ": " ++ errText eNoLV ∧
     unwrapM (GoError.wrapErr 3 "ww" eNoLV) = some eNoLV ∧
     attrsOf (GoError.wrapErr 3 "ww" eNoLV) = []) :=
  ⟨c8_empty_set_plain.1 hEmpty "mw" [] orgA 3 rfl,
   c8_empty_set_plain.2 hEmpty eNoLV "ww" [] orgA 3 [] rfl rfl⟩

/-- Claim C9: the normalizer's handling of error values is decided by
the LogValuer capability — a group rendering is expanded into its
members, a missing capability contributes nothing (normalization
proceeds unchanged), and a non-group rendering makes the whole
normalization panic. -/
theorem c9_logvaluer_dispatch :
    (∀ (e : GoError) (l : List SAttr), logValueOf e = some (.group l) →
      logAttrsFromError e = some l) ∧
    (∀ e : GoError, logValueOf e = none →
      logAttrsFromError e = some [] ∧
      ∀ (h : Heap) (rest : List Item) (am : AttrMap),
        parseLoop h (.err e :: rest) am = parseLoop h rest am) ∧
    (∀ (e : GoError) (v : SValue), logValueOf e = some v → isGroupV v = false →
      logAttrsFromError e = none ∧
      ∀ (h : Heap) (rest : List Item) (am : AttrMap),
        parseLoop h (.err e :: rest) am = none) := by
  refine ⟨?_, ?_, ?_⟩
  · intro e l hlv
    unfold logAttrsFromError
    rw [hlv]
  · intro e hlv
    have hle : logAttrsFromError e = some [] := by
      unfold logAttrsFromError
      rw [hlv]
    refine ⟨hle, ?_⟩
    intro h rest am
    show (match logAttrsFromError e with
          | none => none
          | some attrs =>
            match procAttrs attrs am with
            | none => none
            | some am2 => parseLoop h rest am2) = _
    rw [hle]
    rfl
  · intro e v hlv hng
    have hle : logAttrsFromError e = none := by
      unfold logAttrsFromError
      rw [hlv]
      cases v with
      | group l => cases hng
      | str s => rfl
      | int i => rfl
      | zero => rfl
    refine ⟨hle, ?_⟩
    intro h rest am
    show (match logAttrsFromError e with
          | none => none
          | some attrs =>
            match procAttrs attrs am with
            | none => none
            | some am2 => parseLoop h rest am2) = _
    rw [hle]

/-- Witness for C9 at one error per dispatch arm. -/
theorem c9_logvaluer_dispatch_witness :
    logAttrsFromError (GoError.custom 102 "g" (some (.group [("k", SValue.int 1)]))) =
      some [("k", SValue.int 1)] ∧
    (logAttrsFromError eNoLV = some [] ∧
     parseLoop hEmpty [.err eNoLV] [] = parseLoop hEmpty [] []) ∧
    (logAttrsFromError eBadLV = none ∧ parseLoop hEmpty [.err eBadLV] [] = none) :=
  ⟨c9_logvaluer_dispatch.1 (GoError.custom 102 "g" (some (.group [("k", SValue.int 1)])))
     [("k", SValue.int 1)] rfl,
   ⟨(c9_logvaluer_dispatch.2.1 eNoLV rfl).1,
    (c9_logvaluer_dispatch.2.1 eNoLV rfl).2 hEmpty [] []⟩,
   ⟨(c9_logvaluer_dispatch.2.2 eBadLV (.str "oops") rfl rfl).1,
    (c9_logvaluer_dispatch.2.2 eBadLV (.str "oops") rfl rfl).2 hEmpty [] []⟩⟩

/-- Claim C4: wrapping an existing serror structured error again, when
the merged attribute set is non-empty, reuses the wrapped error's origin
and extends its stack by exactly the freshly captured origin, appended
at the end. -/
theorem c4_stack_extension (h : Heap) (i : Nat) (inner : GoError)
    (attrs : AttrMap) (o : Origin) (st : List Origin) (m : String)
    (args : List Item) (org : Origin) (σ : Nat) (am0 : AttrMap)
    (hp : ParseLogArgs h (.err (.serr i inner attrs o st) :: args) = some am0)
    (hne : am0.filter (fun (a : SAttr) => a.1 != errKey) ≠ []) :
    Serror.Wrap h (some (.serr i inner attrs o st)) m args org σ =
      some (some (.serr (σ + 1) (.wrapErr σ m (.serr i inner attrs o st))
        (am0.filter (fun (a : SAttr) => a.1 != errKey)) o (st ++ [org])), σ + 2) ∧
    originOf (GoError.serr (σ + 1) (.wrapErr σ m (.serr i inner attrs o st))
        (am0.filter (fun (a : SAttr) => a.1 != errKey)) o (st ++ [org])) = some o ∧
    stackOf (GoError.serr (σ + 1) (.wrapErr σ m (.serr i inner attrs o st))
        (am0.filter (fun (a : SAttr) => a.1 != errKey)) o (st ++ [org])) =
      some (st ++ [org]) ∧
    (st ++ [org]).length = st.length + 1 := by
  refine ⟨?_, rfl, rfl, by simp⟩
  rw [SerrorWrap_eq m org σ hp]
  have hlen : ¬ (am0.filter (fun (a : SAttr) => a.1 != errKey)).length < 1 := by
    intro hlt
    exact hne (List.length_eq_zero.1 (Nat.lt_one_iff.1 hlt))
  rw [if_neg hlen]
  rfl

/-- Witness for C4 at a concrete double wrap. -/
theorem c4_stack_extension_witness :
    Serror.Wrap hEmpty
      (some (.serr 7 (.base 6 "root") [("a", .int 1)] orgA [orgA]))
      "m2" [.attr ("b", .int 2)] orgB 10 =
    some (some (.serr 11
      (.wrapErr 10 "m2" (.serr 7 (.base 6 "root") [("a", .int 1)] orgA [orgA]))
      [("a", .int 1), ("b", .int 2)] orgA [orgA, orgB]), 12) :=
  (c4_stack_extension hEmpty 7 (.base 6 "root") [("a", .int 1)] orgA [orgA]
    "m2" [.attr ("b", .int 2)] orgB 10
    [("a", .int 1),
     (errKey, .group [(msgKey, .str "root"), (stackKey, .str "a.go:10")]),
     ("b", .int 2)]
    rfl (fun hc => absurd (congrArg List.length hc) (by decide))).1

/-- Claim C5: in every normalization the result is last-write-wins over
the left-to-right effective attribute stream — a name supplied more than
once yields exactly one attribute carrying the rightmost value — and in
`Wrap` an explicit argument overrides a same-named attribute expanded
from the wrapped error. -/
theorem c5_last_write_wins :
    (∀ (h : Heap) (args : List Item) (s : List SAttr) (k : String),
      streamOf h args = some s → 2 ≤ (s.map Prod.fst).count k →
      ParseLogArgs h args = some (insertAll [] s) ∧
      (keysOf (insertAll [] s)).count k = 1 ∧
      lookupA (insertAll [] s) k = lastVal s k ∧
      lastVal s k ≠ none) ∧
    (∀ (h : Heap) (e : GoError) (args : List Item) (m : String) (org : Origin)
      (σ : Nat) (am0 : AttrMap) (s : List SAttr) (k : String),
      ParseLogArgs h (.err e :: args) = some am0 →
      streamOf h args = some s → k ∈ keysOf s → k ≠ errKey →
      (wrapResultE h e m args org σ).map (fun r => lookupA (attrsOf r) k) =
        some (lastVal s k)) := by
  constructor
  · intro h args s k hs hcnt
    have hp : ParseLogArgs h args = some (insertAll [] s) := by
      rw [ParseLogArgs_eq_stream, hs]
      rfl
    have hmem : k ∈ s.map Prod.fst :=
      List.count_pos_iff.1 (lt_of_lt_of_le (by decide) hcnt)
    have hlv : lastVal s k ≠ none := by
      intro hno
      exact (lastVal_eq_none_iff.1 hno) hmem
    have hlook : lookupA (insertAll [] s) k = lastVal s k := by
      rw [lookupA_insertAll]
      show orO (lastVal s k) (lookupA [] k) = lastVal s k
      exact orO_right_none (lastVal s k)
    have hnodup : (keysOf (insertAll [] s)).Nodup :=
      nodup_keys_insertAll s (by simp [keysOf])
    have hmem2 : k ∈ keysOf (insertAll [] s) := by
      rw [mem_keys_iff_lookupA, hlook]
      cases hv : lastVal s k with
      | none => exact absurd hv hlv
      | some v => rfl
    exact ⟨hp, List.count_eq_one_of_mem hnodup hmem2, hlook, hlv⟩
  · intro h e args m org σ am0 s k hp hs hmem hk
    rcases ParseLogArgs_some hp with ⟨s2, hs2, ham0⟩
    have hstep : streamOf h (.err e :: args) =
        optAppend ((logAttrsFromError e).bind effList) (streamOf h args) := rfl
    rw [hstep, hs] at hs2
    cases hse : (logAttrsFromError e).bind effList with
    | none =>
      rw [hse] at hs2
      cases hs2
    | some se =>
      rw [hse] at hs2
      have hs2' : s2 = se ++ s := by
        cases hs2
        rfl
      subst hs2'
      subst ham0
      have hlvs : lastVal s k ≠ none := by
        intro hno
        exact (lastVal_eq_none_iff.1 hno) hmem
      have hlook0 : lookupA (insertAll [] (se ++ s)) k = lastVal s k := by
        rw [lookupA_insertAll, lastVal_append]
        cases hv : lastVal s k with
        | none => exact absurd hv hlvs
        | some v => rfl
      have hlookf :
          lookupA ((insertAll [] (se ++ s)).filter
            (fun (a : SAttr) => a.1 != errKey)) k = lastVal s k := by
        rw [lookupA_filter_ne_key _ _ _ hk]
        exact hlook0
      have hfne : (insertAll [] (se ++ s)).filter
          (fun (a : SAttr) => a.1 != errKey) ≠ [] := by
        intro hnil
        rw [hnil] at hlookf
        exact hlvs (by rw [← hlookf]; rfl)
      have hlen : ¬ ((insertAll [] (se ++ s)).filter
          (fun (a : SAttr) => a.1 != errKey)).length < 1 := by
        intro hlt
        exact hfne (List.length_eq_zero.1 (Nat.lt_one_iff.1 hlt))
      unfold wrapResultE
      rw [ErrsWrap_eq m org σ hp, if_neg hlen]
      cases hq : asSErrOrigin e with
      | some o =>
        simp only [Option.map_some']
        rw [show attrsOf (GoError.sErr (σ + 1) (.wrapErr σ m e)
          ((insertAll [] (se ++ s)).filter (fun (a : SAttr) => a.1 != errKey)) o) =
          (insertAll [] (se ++ s)).filter (fun (a : SAttr) => a.1 != errKey) from rfl]
        rw [hlookf]
      | none =>
        simp only [Option.map_some']
        rw [show attrsOf (GoError.sErr (σ + 1) (.wrapErr σ m e)
          ((insertAll [] (se ++ s)).filter (fun (a : SAttr) => a.1 != errKey)) org) =
          (insertAll [] (se ++ s)).filter (fun (a : SAttr) => a.1 != errKey) from rfl]
        rw [hlookf]

/-- Witness for C5: a duplicated key in one call, and an explicit
argument overriding the wrapped error's expansion. -/
theorem c5_last_write_wins_witness :
    (ParseLogArgs hEmpty [.str "k", .other (.int 1), .str "k", .other (.int 2)] =
       some (insertAll [] [("k", .int 1), ("k", .int 2)]) ∧
     (keysOf (insertAll [] [("k", .int 1), ("k", .int 2)])).count "k" = 1 ∧
     lookupA (insertAll [] [("k", .int 1), ("k", .int 2)]) "k" =
       lastVal [("k", .int 1), ("k", .int 2)] "k" ∧
     lastVal [("k", .int 1), ("k", .int 2)] "k" ≠ none) ∧
    (wrapResultE hEmpty eNoLV "w" [.attr ("k", .int 1), .attr ("k", .int 2)]
        orgA 0).map (fun r => lookupA (attrsOf r) "k") =
      some (lastVal [("k", .int 1), ("k", .int 2)] "k") :=
  ⟨c5_last_write_wins.1 hEmpty [.str "k", .other (.int 1), .str "k", .other (.int 2)]
     [("k", .int 1), ("k", .int 2)] "k" rfl (by decide),
   c5_last_write_wins.2 hEmpty eNoLV [.attr ("k", .int 1), .attr ("k", .int 2)]
     "w" orgA 0 [("k", .int 2)] [("k", .int 1), ("k", .int 2)] "k" rfl rfl
     (by simp [keysOf]) (by decide)⟩

/-- Claim C10: an empty-keyed group attribute is inlined — its members
are inserted under their own names and the wrapper contributes no field
of its own; consequently the unnamed group `loghelper.Attr` returns for
two or more results round-trips through the normalizer with its members
merging individually; an empty-keyed non-group value panics. -/
theorem c10_unnamed_group_inline :
    (∀ (h : Heap) (l : List SAttr) (rest : List Item) (am : AttrMap), l ≠ [] →
      parseLoop h (.attr ("", .group l) :: rest) am =
        parseLoop h rest (insertAll am l)) ∧
    (∀ v : SValue, isGroupV v = false →
      ∀ (h : Heap) (rest : List Item) (am : AttrMap),
        parseLoop h (.attr ("", v) :: rest) am = none) ∧
    (∀ (h : Heap) (args : List Item) (a b : SAttr) (rest2 : List SAttr),
      ParseLogArgs h args = some (a :: b :: rest2) →
      Loghelper.Attr h args = some ("", .group (sortByKey (a :: b :: rest2))) ∧
      ParseLogArgs h [.attr ("", .group (sortByKey (a :: b :: rest2)))] =
        some (insertAll [] (sortByKey (a :: b :: rest2))) ∧
      ∀ k, lookupA (insertAll [] (sortByKey (a :: b :: rest2))) k =
        lookupA (a :: b :: rest2) k) := by
  have hinline : ∀ (h : Heap) (l : List SAttr) (rest : List Item) (am : AttrMap),
      l ≠ [] →
      parseLoop h (.attr ("", .group l) :: rest) am =
        parseLoop h rest (insertAll am l) := by
    intro h l rest am hl
    show (match procAttrs [("", SValue.group l)] am with
          | none => none
          | some am2 => parseLoop h rest am2) = _
    have hpa : procAttrs [("", SValue.group l)] am = some (insertAll am l) := by
      cases l with
      | nil => exact absurd rfl hl
      | cons x xs => rfl
    rw [hpa]
  refine ⟨hinline, ?_, ?_⟩
  · intro v hng h rest am
    show (match procAttrs [("", v)] am with
          | none => none
          | some am2 => parseLoop h rest am2) = _
    have hpa : procAttrs [("", v)] am = none := by
      cases v with
      | group l => cases hng
      | str s => rfl
      | int i => rfl
      | zero => rfl
    rw [hpa]
  · intro h args a b rest2 hp
    have hnodup : (keysOf (a :: b :: rest2)).Nodup := parse_nodup hp
    have hperm : (sortByKey (a :: b :: rest2)).Perm (a :: b :: rest2) :=
      sortByKey_perm (a :: b :: rest2)
    have hsne : sortByKey (a :: b :: rest2) ≠ [] := by
      intro hnil
      have hlen := hperm.length_eq
      rw [hnil] at hlen
      cases hlen
    refine ⟨?_, ?_, ?_⟩
    · show (match ParseLogArgs h args with
            | none => none
            | some [] => some ("", SValue.zero)
            | some [a] => some a
            | some (a :: b :: rest) =>
              some ("", SValue.group (sortByKey (a :: b :: rest)))) = _
      rw [hp]
    · show parseLoop h [.attr ("", .group (sortByKey (a :: b :: rest2)))] [] = _
      rw [hinline h (sortByKey (a :: b :: rest2)) [] [] hsne]
      rfl
    · intro k
      rw [lookupA_insertAll]
      rw [show lookupA [] k = none from rfl]
      rw [orO_right_none]
      have hnodup2 : (keysOf (sortByKey (a :: b :: rest2))).Nodup :=
        nodup_keys_of_perm hperm.symm hnodup
      rw [lastVal_eq_lookupA hnodup2]
      exact lookupA_perm hperm hnodup2 k

/-- Witness for C10: inlining, round-trip through `loghelper.Attr`, and
the empty-key panic, at concrete values. -/
theorem c10_unnamed_group_inline_witness :
    parseLoop hEmpty [.attr ("", .group [("a", .int 1)])] [] =
      parseLoop hEmpty [] (insertAll [] [("a", .int 1)]) ∧
    parseLoop hEmpty [.attr ("", .int 7)] [] = none ∧
    (Loghelper.Attr hEmpty [.attr ("b", .int 2), .attr ("a", .int 1)] =
      some ("", .group (sortByKey [("b", .int 2), ("a", .int 1)])) ∧
     lookupA (insertAll [] (sortByKey [("b", .int 2), ("a", .int 1)])) "a" =
       lookupA [("b", .int 2), ("a", .int 1)] "a" ∧
     lookupA (insertAll [] (sortByKey [("b", .int 2), ("a", .int 1)])) "b" =
       lookupA [("b", .int 2), ("a", .int 1)] "b") :=
  ⟨c10_unnamed_group_inline.1 hEmpty [("a", .int 1)] [] []
     (List.cons_ne_nil ("a", SValue.int 1) []),
   c10_unnamed_group_inline.2.1 (.int 7) rfl hEmpty [] [],
   (c10_unnamed_group_inline.2.2 hEmpty [.attr ("b", .int 2), .attr ("a", .int 1)]
      ("b", .int 2) ("a", .int 1) [] rfl).1,
   ((c10_unnamed_group_inline.2.2 hEmpty [.attr ("b", .int 2), .attr ("a", .int 1)]
      ("b", .int 2) ("a", .int 1) [] rfl).2.2 "a"),
   ((c10_unnamed_group_inline.2.2 hEmpty [.attr ("b", .int 2), .attr ("a", .int 1)]
      ("b", .int 2) ("a", .int 1) [] rfl).2.2 "b")⟩

/-- Lookup distributes over list append, preferring the left part. -/
theorem lookupA_append (m1 m2 : AttrMap) (k : String) :
    lookupA (m1 ++ m2) k = orO (lookupA m1 k) (lookupA m2 k) := by
  induction m1 with
  | nil => simp [lookupA, orO_none]
  | cons a rest ih =>
    obtain ⟨ka, va⟩ := a
    simp only [List.cons_append, lookupA]
    by_cases h : ka = k
    · rw [if_pos h, if_pos h]
      rfl
    · rw [if_neg h, if_neg h]
      exact ih

/-- The error group rendered by `sError.LogValue` always carries the
reserved key. -/
theorem sErrGroup_key (inner : GoError) (org : Origin) :
    (sErrGroup inner org).1 = errKey := by
  unfold sErrGroup
  by_cases h : org.emptyB <;> simp [h]

/-- The error group rendered by `sError.LogValue` is never an empty
group (it always holds the message). -/
theorem sErrGroup_nonempty (inner : GoError) (org : Origin) :
    isEmptyGroup (sErrGroup inner org).2 = false := by
  unfold sErrGroup
  by_cases h : org.emptyB <;> simp [h, isEmptyGroup]

/-- One `Wrap` step over a structured error whose attributes are clean
(non-empty keys, no reserved key, no empty-group values), adding a
single clean attribute: the result is a structured error with the same
origin whose attribute map extends the wrapped one by the new binding,
staying clean and key-unique. -/
theorem wrap_step (h : Heap) (i : Nat) (inner : GoError) (A : AttrMap)
    (o : Origin) (m kn : String) (vn : SValue) (org : Origin) (σ : Nat)
    (hA_nodup : (keysOf A).Nodup)
    (hA_clean : ∀ x ∈ A, x.1 ≠ "" ∧ x.1 ≠ errKey ∧ isEmptyGroup x.2 = false)
    (hkn : kn ≠ "") (hkne : kn ≠ errKey) (hvn : isEmptyGroup vn = false) :
    ∃ am2 : AttrMap,
      Errs.Wrap h (some (.sErr i inner A o)) m [.attr (kn, vn)] org σ =
        some (some (.sErr (σ + 1) (.wrapErr σ m (.sErr i inner A o)) am2 o),
          σ + 2) ∧
      (keysOf am2).Nodup ∧
      (∀ x ∈ am2, x.1 ≠ "" ∧ x.1 ≠ errKey ∧ isEmptyGroup x.2 = false) ∧
      (∀ k, lookupA am2 k = if k = kn then some vn else lookupA A k) := by
  have herrne : (errKey : String) ≠ "" := by decide
  have hegkey := sErrGroup_key inner o
  have hegval := sErrGroup_nonempty inner o
  have hclean : ∀ x ∈ A ++ [sErrGroup inner o],
      x.1 ≠ "" ∧ isEmptyGroup x.2 = false := by
    intro x hx
    rcases List.mem_append.1 hx with hx | hx
    · exact ⟨(hA_clean x hx).1, (hA_clean x hx).2.2⟩
    · rcases List.mem_singleton.1 hx with rfl
      exact ⟨by rw [hegkey]; exact herrne, hegval⟩
  have hLperm : (sortByKey (A ++ [sErrGroup inner o])).Perm
      (A ++ [sErrGroup inner o]) := sortByKey_perm _
  have hLclean : ∀ x ∈ sortByKey (A ++ [sErrGroup inner o]),
      x.1 ≠ "" ∧ isEmptyGroup x.2 = false :=
    fun x hx => hclean x (hLperm.mem_iff.1 hx)
  have heffL : effList (sortByKey (A ++ [sErrGroup inner o])) =
      some (sortByKey (A ++ [sErrGroup inner o])) := effList_of_clean hLclean
  have hlae : logAttrsFromError (.sErr i inner A o) =
      some (sortByKey (A ++ [sErrGroup inner o])) := rfl
  have heffn : effList [(kn, vn)] = some [(kn, vn)] := by
    refine effList_of_clean ?_
    intro x hx
    rcases List.mem_singleton.1 hx with rfl
    exact ⟨hkn, hvn⟩
  have hstream : streamOf h (.err (.sErr i inner A o) :: [.attr (kn, vn)]) =
      some (sortByKey (A ++ [sErrGroup inner o]) ++ [(kn, vn)]) := by
    show optAppend ((logAttrsFromError (.sErr i inner A o)).bind effList)
      (optAppend (effList [(kn, vn)]) (streamOf h ([] : List Item))) = _
    rw [hlae, heffn]
    show optAppend (effList (sortByKey (A ++ [sErrGroup inner o])))
      (optAppend (some [(kn, vn)]) (some [])) = _
    rw [heffL]
    rfl
  have hp2 : ParseLogArgs h (.err (.sErr i inner A o) :: [.attr (kn, vn)]) =
      some (insertAll [] (sortByKey (A ++ [sErrGroup inner o]) ++ [(kn, vn)])) := by
    rw [ParseLogArgs_eq_stream, hstream]
    rfl
  have hkeysAppend : keysOf (A ++ [sErrGroup inner o]) = keysOf A ++ [errKey] := by
    unfold keysOf
    rw [List.map_append]
    simp [hegkey]
  have herrNotinA : errKey ∉ keysOf A := by
    intro hmem
    rcases List.mem_map.1 hmem with ⟨x, hx, hkx⟩
    exact (hA_clean x hx).2.1 hkx
  have hnodupApp : (keysOf (A ++ [sErrGroup inner o])).Nodup := by
    rw [hkeysAppend]
    refine List.nodup_append.2 ⟨hA_nodup, List.nodup_singleton _, ?_⟩
    intro a ha hb
    rcases List.mem_singleton.1 hb with rfl
    exact herrNotinA ha
  have hnodupL : (keysOf (sortByKey (A ++ [sErrGroup inner o]))).Nodup :=
    ((hLperm.map Prod.fst).nodup_iff).2 hnodupApp
  have hlookAppend : ∀ k, lookupA (A ++ [sErrGroup inner o]) k =
      orO (lookupA A k)
        (if errKey = k then some (sErrGroup inner o).2 else none) := by
    intro k
    rw [lookupA_append]
    rw [show lookupA [sErrGroup inner o] k =
      if (sErrGroup inner o).1 = k then some (sErrGroup inner o).2 else none
      from rfl]
    rw [hegkey]
  have hlookam0 : ∀ k,
      lookupA (insertAll []
        (sortByKey (A ++ [sErrGroup inner o]) ++ [(kn, vn)])) k =
      orO (if kn = k then some vn else none)
        (orO (lookupA A k)
          (if errKey = k then some (sErrGroup inner o).2 else none)) := by
    intro k
    rw [lookupA_insertAll, lastVal_append]
    rw [show lastVal [(kn, vn)] k = if kn = k then some vn else none from rfl]
    rw [lastVal_eq_lookupA hnodupL, lookupA_perm hLperm hnodupL, hlookAppend k]
    rw [show lookupA ([] : AttrMap) k = none from rfl, orO_right_none]
  have hlookam2 : ∀ k,
      lookupA ((insertAll []
        (sortByKey (A ++ [sErrGroup inner o]) ++ [(kn, vn)])).filter
          (fun (a : SAttr) => a.1 != errKey)) k =
      if k = kn then some vn else lookupA A k := by
    intro k
    by_cases hk : k = errKey
    · subst hk
      rw [lookupA_filter_ne]
      rw [if_neg (fun hh : errKey = kn => hkne (Eq.symm hh))]
      cases hA : lookupA A errKey with
      | none => rfl
      | some v =>
        have hmem : ((errKey, v) : SAttr) ∈ A :=
          (lookupA_eq_some_iff_mem hA_nodup).1 hA
        exact absurd rfl ((hA_clean _ hmem).2.1)
    · rw [lookupA_filter_ne_key _ _ _ hk, hlookam0 k]
      by_cases hkn2 : kn = k
      · rw [if_pos hkn2, if_pos (Eq.symm hkn2)]
        rfl
      · rw [if_neg hkn2, if_neg (fun hh : k = kn => hkn2 (Eq.symm hh)), orO_none]
        rw [if_neg (fun hh : errKey = k => hk (Eq.symm hh))]
        exact orO_right_none _
  have hnodupam0 : (keysOf (insertAll []
      (sortByKey (A ++ [sErrGroup inner o]) ++ [(kn, vn)]))).Nodup :=
    nodup_keys_insertAll _ (by simp [keysOf])
  have hnodupam2 : (keysOf ((insertAll []
      (sortByKey (A ++ [sErrGroup inner o]) ++ [(kn, vn)])).filter
        (fun (a : SAttr) => a.1 != errKey))).Nodup :=
    nodup_keys_filter _ hnodupam0
  have hcleanam2 : ∀ x ∈ (insertAll []
      (sortByKey (A ++ [sErrGroup inner o]) ++ [(kn, vn)])).filter
        (fun (a : SAttr) => a.1 != errKey),
      x.1 ≠ "" ∧ x.1 ≠ errKey ∧ isEmptyGroup x.2 = false := by
    intro x hx
    have hxpair : ((x.1, x.2) : SAttr) ∈ (insertAll []
        (sortByKey (A ++ [sErrGroup inner o]) ++ [(kn, vn)])).filter
          (fun (a : SAttr) => a.1 != errKey) := by
      rw [Prod.mk.eta]
      exact hx
    have hxlook := (lookupA_eq_some_iff_mem hnodupam2).2 hxpair
    rw [hlookam2 x.1] at hxlook
    by_cases hx1 : x.1 = kn
    · rw [if_pos hx1] at hxlook
      injection hxlook with hv2
      exact ⟨by rw [hx1]; exact hkn, by rw [hx1]; exact hkne,
        by rw [← hv2]; exact hvn⟩
    · rw [if_neg hx1] at hxlook
      have hmem : ((x.1, x.2) : SAttr) ∈ A :=
        (lookupA_eq_some_iff_mem hA_nodup).1 hxlook
      have hxA : x ∈ A := by
        rw [← Prod.mk.eta (p := x)]
        exact hmem
      exact hA_clean x hxA
  refine ⟨(insertAll [] (sortByKey (A ++ [sErrGroup inner o]) ++ [(kn, vn)])).filter
      (fun (a : SAttr) => a.1 != errKey), ?_, hnodupam2, hcleanam2, hlookam2⟩
  rw [ErrsWrap_eq m org σ hp2]
  have hamne : (insertAll []
      (sortByKey (A ++ [sErrGroup inner o]) ++ [(kn, vn)])).filter
        (fun (a : SAttr) => a.1 != errKey) ≠ [] := by
    intro hnil
    have hl := hlookam2 kn
    rw [hnil, if_pos rfl] at hl
    cases hl
  rw [if_neg (fun hlt => hamne (List.length_eq_zero.1 (Nat.lt_one_iff.1 hlt)))]
  rfl

/-- Claim C7: starting from `New` with one attribute named `ka`, then
wrapping twice adding one attribute named `kb` and `kc` respectively
(all distinct, non-empty, non-reserved names with non-empty-group
values), the final error's self-rendering is a group whose top-level
names are exactly `ka`, `kb`, `kc` and the reserved error-group name,
sorted lexicographically. -/
theorem c7_three_wraps_sorted_names (h : Heap) (m1 m2 m3 ka kb kc : String)
    (va vb vc : SValue) (org1 org2 org3 : Origin) (σ : Nat)
    (hab : ka ≠ kb) (hac : ka ≠ kc) (hbc : kb ≠ kc)
    (ha0 : ka ≠ "") (hb0 : kb ≠ "") (hc0 : kc ≠ "")
    (hae : ka ≠ errKey) (hbe : kb ≠ errKey) (hce : kc ≠ errKey)
    (hva : isEmptyGroup va = false) (hvb : isEmptyGroup vb = false)
    (hvc : isEmptyGroup vc = false) :
    ((chainC7 h m1 m2 m3 ka kb kc va vb vc org1 org2 org3 σ).bind lvKeys).isSome
      = true ∧
    ∀ ks, (chainC7 h m1 m2 m3 ka kb kc va vb vc org1 org2 org3 σ).bind lvKeys =
        some ks →
      ks.Perm [ka, kb, kc, errKey] ∧
      List.Sorted (fun x y => strLE x y = true) ks := by
  have heffa : effList [(ka, va)] = some [(ka, va)] := by
    refine effList_of_clean ?_
    intro x hx
    rcases List.mem_singleton.1 hx with rfl
    exact ⟨ha0, hva⟩
  have hs1 : streamOf h [.attr (ka, va)] = some [(ka, va)] := by
    show optAppend (effList [(ka, va)]) (streamOf h ([] : List Item)) = _
    rw [heffa]
    rfl
  have hp1 : ParseLogArgs h [.attr (ka, va)] = some [(ka, va)] := by
    rw [ParseLogArgs_eq_stream, hs1]
    rfl
  have hNew : Errs.New h m1 [.attr (ka, va)] org1 σ =
      some (.sErr (σ + 1) (.base σ m1) [(ka, va)] org1, σ + 2) := by
    rw [ErrsNew_eq m1 org1 σ hp1]
    rfl
  have hA1nodup : (keysOf [(ka, va)]).Nodup := by simp [keysOf]
  have hA1clean : ∀ x ∈ ([(ka, va)] : AttrMap),
      x.1 ≠ "" ∧ x.1 ≠ errKey ∧ isEmptyGroup x.2 = false := by
    intro x hx
    rcases List.mem_singleton.1 hx with rfl
    exact ⟨ha0, hae, hva⟩
  obtain ⟨am2, hW1, hnodup2, hclean2, hlook2⟩ :=
    wrap_step h (σ + 1) (.base σ m1) [(ka, va)] org1 m2 kb vb org2 (σ + 2)
      hA1nodup hA1clean hb0 hbe hvb
  obtain ⟨am3, hW2, hnodup3, hclean3, hlook3⟩ :=
    wrap_step h (σ + 3)
      (.wrapErr (σ + 2) m2 (.sErr (σ + 1) (.base σ m1) [(ka, va)] org1))
      am2 org1 m3 kc vc org3 (σ + 4) hnodup2 hclean2 hc0 hce hvc
  have hchain : chainC7 h m1 m2 m3 ka kb kc va vb vc org1 org2 org3 σ =
      some (.sErr (σ + 5)
        (.wrapErr (σ + 4) m3 (.sErr (σ + 3)
          (.wrapErr (σ + 2) m2 (.sErr (σ + 1) (.base σ m1) [(ka, va)] org1))
          am2 org1))
        am3 org1) := by
    unfold chainC7
    rw [hNew]
    show (match Errs.Wrap h
        (some (GoError.sErr (σ + 1) (.base σ m1) [(ka, va)] org1)) m2
        [.attr (kb, vb)] org2 (σ + 2) with
      | some (some e2, σ2) =>
        match Errs.Wrap h (some e2) m3 [.attr (kc, vc)] org3 σ2 with
        | some (some e3, _) => some e3
        | _ => none
      | _ => none) = _
    rw [hW1]
    show (match Errs.Wrap h
        (some (GoError.sErr (σ + 3)
          (.wrapErr (σ + 2) m2 (.sErr (σ + 1) (.base σ m1) [(ka, va)] org1))
          am2 org1)) m3 [.attr (kc, vc)] org3 (σ + 4) with
      | some (some e3, _) => some e3
      | _ => none) = _
    rw [hW2]
  have hmem3 : ∀ k, k ∈ keysOf am3 ↔ (k = ka ∨ k = kb ∨ k = kc) := by
    intro k
    rw [mem_keys_iff_lookupA, hlook3 k, hlook2 k]
    rw [show lookupA [(ka, va)] k = if ka = k then some va else none from rfl]
    by_cases h3 : k = kc
    · simp [h3]
    · rw [if_neg h3]
      by_cases h2 : k = kb
      · simp [h2, h3]
      · rw [if_neg h2]
        by_cases h1 : ka = k
        · simp [Eq.symm h1, h2, h3]
        · have h1x : ¬ k = ka := fun hh => h1 (Eq.symm hh)
          simp [h1, h1x, h2, h3]
  have hpermkeys3 : (keysOf am3).Perm [ka, kb, kc] := by
    refine (List.perm_ext_iff_of_nodup hnodup3 ?_).2 ?_
    · simp [hab, hac, hbc]
    · intro a
      rw [hmem3 a]
      simp
  have hkeysL3 : (keysOf (sortByKey (am3 ++
      [sErrGroup (.wrapErr (σ + 4) m3 (.sErr (σ + 3)
        (.wrapErr (σ + 2) m2 (.sErr (σ + 1) (.base σ m1) [(ka, va)] org1))
        am2 org1)) org1]))).Perm [ka, kb, kc, errKey] := by
    have hmapperm := (sortByKey_perm (am3 ++
      [sErrGroup (.wrapErr (σ + 4) m3 (.sErr (σ + 3)
        (.wrapErr (σ + 2) m2 (.sErr (σ + 1) (.base σ m1) [(ka, va)] org1))
        am2 org1)) org1])).map Prod.fst
    refine hmapperm.trans ?_
    have hkeq : keysOf (am3 ++
        [sErrGroup (.wrapErr (σ + 4) m3 (.sErr (σ + 3)
          (.wrapErr (σ + 2) m2 (.sErr (σ + 1) (.base σ m1) [(ka, va)] org1))
          am2 org1)) org1]) = keysOf am3 ++ [errKey] := by
      unfold keysOf
      rw [List.map_append]
      simp [sErrGroup_key]
    show keysOf (am3 ++ _) |>.Perm _
    rw [hkeq]
    have happ := hpermkeys3.append_right [errKey]
    simpa using happ
  constructor
  · rw [hchain]
    rfl
  · intro ks hks
    rw [hchain] at hks
    have hks2 : some (keysOf (sortByKey (am3 ++
        [sErrGroup (.wrapErr (σ + 4) m3 (.sErr (σ + 3)
          (.wrapErr (σ + 2) m2 (.sErr (σ + 1) (.base σ m1) [(ka, va)] org1))
          am2 org1)) org1]))) = some ks := hks
    injection hks2 with hks3
    rw [← hks3]
    exact ⟨hkeysL3, sortByKey_keys_sorted _⟩

/-- Witness for C7 at concrete names a, b, c and integer values. -/
theorem c7_three_wraps_sorted_names_witness :
    ((chainC7 hEmpty "m1" "m2" "m3" "a" "b" "c" (.int 1) (.int 2) (.int 3)
        orgA orgB orgC 0).bind lvKeys).isSome = true ∧
    (["a", "b", "c", "error"].Perm ["a", "b", "c", errKey] ∧
     List.Sorted (fun x y => strLE x y = true) ["a", "b", "c", "error"]) :=
  ⟨(c7_three_wraps_sorted_names hEmpty "m1" "m2" "m3" "a" "b" "c"
      (.int 1) (.int 2) (.int 3) orgA orgB orgC 0
      (by decide) (by decide) (by decide) (by decide) (by decide) (by decide)
      (by decide) (by decide) (by decide) rfl rfl rfl).1,
   (c7_three_wraps_sorted_names hEmpty "m1" "m2" "m3" "a" "b" "c"
      (.int 1) (.int 2) (.int 3) orgA orgB orgC 0
      (by decide) (by decide) (by decide) (by decide) (by decide) (by decide)
      (by decide) (by decide) (by decide) rfl rfl rfl).2
     ["a", "b", "c", "error"] rfl⟩

end VErrors
